import Mathlib

/-!
Verification of the supysonic media streaming/transcoding pipeline
(`supysonic/api/media.py`) against its natural-language specification.

The Python source is shallowly embedded below:

* Python truthiness of optional strings / ints is made explicit
  (`optStrTruthy`, `optIntTruthy`);
* `str.lower` and `str.replace` are embedded as structurally recursive
  functions over `List Char` (`pyLower`, `pyReplace`) with the same
  semantics as Python for the inputs that occur (non-empty patterns,
  ASCII format names);
* `shlex.split` (POSIX mode) is embedded as `shlexSplit`;
* the `handle_transcoding` generator of `stream_media` is embedded as a
  trace-producing function: the trace records, in order, every chunk
  yielded, every process kill, every pipe close / process wait, and the
  exception (if any) that propagates out of the generator.

Machine integers are modelled as `Int` / `Nat` (Python ints are unbounded,
so no wrap-around modelling is needed).
-/

namespace Supysonic

/-- Python truthiness of an optional string: `None` and `""` are falsy. -/
def optStrTruthy : Option String → Bool
  | none => false
  | some s => !(s == "")

/-- Python truthiness of an optional integer: `None` and `0` are falsy. -/
def optIntTruthy : Option Int → Bool
  | none => false
  | some n => !(n == 0)

/-- Python `a or b` on optional strings: returns `a` when truthy, else `b`. -/
def pyOr (a b : Option String) : Option String :=
  if optStrTruthy a then a else b

/-- Embedding of Python `str.lower` for the ASCII strings used as format
names (`request_format.lower()` in `stream_media`). -/
def pyLower (s : String) : String :=
  (s.data.map Char.toLower).asString

theorem pyLower_ne_empty {s : String} (h : s ≠ "") : pyLower s ≠ "" := by
  intro hc
  apply h
  apply String.ext
  have hdata : (s.data.map Char.toLower) = [] := congrArg String.data hc
  rcases List.map_eq_nil_iff.mp hdata with h2
  simp [h2]

/-- The track attributes read by `stream_media` and
`prepare_transcoding_cmdline` (`res` in the source, a `Track` row). -/
structure Res where
  id : String
  path : String
  suffix : String
  bitrate : Int
  duration : Int
  title : String
  albumName : String
  artistName : String
  number : Int
  totalTracks : Int
  disc : Int
  genre : Option String
  year : Option Int
deriving DecidableEq

/-- Request parameters read by `stream_media` via `request.values.get`.
`maxBitRate` is modelled after `int()` conversion: `none` stands for an
absent or empty parameter (falsy before the conversion). -/
structure StreamRequest where
  maxBitRate : Option Int
  format : Option String
  estimateContentLength : Option String
deriving DecidableEq

/-- The stored per-client preferences (`request.client` in the source). -/
structure ClientPrefs where
  format : Option String
  bitrate : Option Int
deriving DecidableEq

/-- Result of the format/bitrate negotiation block of `stream_media`
(lines 80-107 of `media.py`). -/
structure NegoResult where
  dstSuffix : String
  dstBitrate : Int
  usingDefaultFormat : Bool
deriving DecidableEq

/-- Inputs of the negotiation block, gathered from the track, the request,
the stored preferences and the `TRANSCODING` configuration section. -/
structure NegoInput where
  srcSuffix : String
  srcBitrate : Int
  requestFormat : Option String
  prefsFormat : Option String
  prefsBitrate : Option Int
  maxBitRate : Option Int
  defaultTranscodeTarget : Option String
deriving DecidableEq

/-- Format choice step of `stream_media`:
`if request_format: ... elif prefs.format: ... else: using_default_format = True ...`.
Returns `(using_default_format, dst_suffix)`; `request_format` is already
lowercased by the caller. -/
def chooseFormat (request_format prefs_format : Option String)
    (src_suffix : String) : Bool × String :=
  if optStrTruthy request_format then
    (false, if request_format.getD "" = "raw" then src_suffix else request_format.getD "")
  else if optStrTruthy prefs_format then
    (false, prefs_format.getD "")
  else
    (true, src_suffix)

/-- Preferred-bitrate step of `stream_media`:
`if prefs.bitrate and prefs.bitrate < dst_bitrate: dst_bitrate = prefs.bitrate`. -/
def applyPrefsBitrate (prefs_bitrate : Option Int) (dst_bitrate : Int) : Int :=
  if optIntTruthy prefs_bitrate ∧ prefs_bitrate.getD 0 < dst_bitrate then
    prefs_bitrate.getD 0
  else dst_bitrate

/-- `maxBitRate` step of `stream_media`:
`if maxBitRate: ... if dst_bitrate > maxBitRate and maxBitRate != 0: ...`.
Returns the updated `(dst_suffix, dst_bitrate)`. -/
def applyMaxBitRate (maxBitRate : Option Int) (using_default_format : Bool)
    (default_transcode_target : Option String)
    (dst_suffix : String) (dst_bitrate : Int) : String × Int :=
  match maxBitRate with
  | none => (dst_suffix, dst_bitrate)
  | some m =>
    if dst_bitrate > m ∧ m ≠ 0 then
      (if using_default_format then
        (pyOr default_transcode_target (some dst_suffix)).getD ""
       else dst_suffix, m)
    else (dst_suffix, dst_bitrate)

/-- The whole negotiation block of `stream_media`, composing the three
steps above; `request_format` is lowercased first when truthy (lowercasing
an empty string is the identity, so the truthiness guard can be dropped). -/
def negotiate (inp : NegoInput) : NegoResult :=
  let request_format := inp.requestFormat.map pyLower
  let fmtChoice := chooseFormat request_format inp.prefsFormat inp.srcSuffix
  let db1 := applyPrefsBitrate inp.prefsBitrate inp.srcBitrate
  let final := applyMaxBitRate inp.maxBitRate fmtChoice.1 inp.defaultTranscodeTarget
    fmtChoice.2 db1
  { dstSuffix := final.1, dstBitrate := final.2, usingDefaultFormat := fmtChoice.1 }

/-- Transcode decision of `stream_media`:
`if dst_suffix != src_suffix or dst_bitrate != res.bitrate`. -/
def requires_transcode (inp : NegoInput) : Bool :=
  ((negotiate inp).dstSuffix != inp.srcSuffix) ||
    ((negotiate inp).dstBitrate != inp.srcBitrate)

/-- The cache key of `stream_media`:
`cache_key = "{}-{}.{}".format(res.id, dst_bitrate, dst_suffix)`. -/
def cache_key (id : String) (dst_bitrate : Int) (dst_suffix : String) : String :=
  id ++ "-" ++ toString dst_bitrate ++ "." ++ dst_suffix

/-- Check that `pat` is a leading segment of `l`; on success return the
remainder of `l` after it. -/
def dropStart : List Char → List Char → Option (List Char)
  | [], l => some l
  | _ :: _, [] => none
  | p :: ps, c :: cs => if p = c then dropStart ps cs else none

/-- Fuel-driven core of `pyReplace`: scan left to right, replacing each
non-overlapping occurrence of `pat` by `rep` and continuing after the
inserted replacement (the replacement text is never rescanned). One fuel
unit is spent per consumed character, so `l.length` fuel suffices for a
non-empty `pat`. -/
def replaceCore (pat rep : List Char) : Nat → List Char → List Char
  | 0, l => l
  | _ + 1, [] => []
  | fuel + 1, c :: cs =>
    match dropStart pat (c :: cs) with
    | some rest => rep ++ replaceCore pat rep fuel rest
    | none => c :: replaceCore pat rep fuel cs

/-- Embedding of Python `str.replace` for a non-empty pattern (every
placeholder in `prepare_transcoding_cmdline` is a non-empty literal):
leftmost-first, non-overlapping replacement of every occurrence. -/
def pyReplace (s pattern replacement : String) : String :=
  (replaceCore pattern.data replacement.data s.data.length s.data).asString

/-- Tokenizer mode of the embedded `shlex.split`: outside quotes, inside
single quotes, or inside double quotes. -/
inductive ShMode
  | normal
  | insingle
  | indouble
deriving DecidableEq

/-- The single-quote character (codepoint 39). -/
def singleQuoteChar : Char := Char.ofNat 39

/-- The double-quote character (codepoint 34). -/
def doubleQuoteChar : Char := Char.ofNat 34

/-- Characters in `shlex.whitespace`. -/
def shWhitespace (c : Char) : Bool :=
  c == ' ' || c == '\t' || c == '\r' || c == '\n'

/-- Core of the embedded `shlex.split` (POSIX mode, whitespace split, no
comments), as used by `prepare_transcoding_cmdline`. The accumulator
`cur` is `none` while no token is in progress, `some tok` otherwise, so
quoted empty tokens are kept. Python raises `ValueError` on an unclosed
quote or a trailing escape character; the embedding closes the pending
token there instead (no template in the claims exercises these errors). -/
def shlexAux : ShMode → Option (List Char) → List Char → List String
  | .normal, none, [] => []
  | .normal, some tok, [] => [String.mk tok]
  | .normal, cur, c :: cs =>
    if shWhitespace c then
      match cur with
      | none => shlexAux .normal none cs
      | some tok => String.mk tok :: shlexAux .normal none cs
    else if c = singleQuoteChar then shlexAux .insingle (some (cur.getD [])) cs
    else if c = doubleQuoteChar then shlexAux .indouble (some (cur.getD [])) cs
    else if c = '\\' then
      match cs with
      | [] => [String.mk (cur.getD [])]
      | d :: ds => shlexAux .normal (some (cur.getD [] ++ [d])) ds
    else shlexAux .normal (some (cur.getD [] ++ [c])) cs
  | .insingle, cur, [] => [String.mk (cur.getD [])]
  | .insingle, cur, c :: cs =>
    if c = singleQuoteChar then shlexAux .normal (some (cur.getD [])) cs
    else shlexAux .insingle (some (cur.getD [] ++ [c])) cs
  | .indouble, cur, [] => [String.mk (cur.getD [])]
  | .indouble, cur, c :: cs =>
    if c = doubleQuoteChar then shlexAux .normal (some (cur.getD [])) cs
    else if c = '\\' then
      match cs with
      | [] => [String.mk (cur.getD [] ++ [c])]
      | d :: ds =>
        if d = doubleQuoteChar ∨ d = '\\' then
          shlexAux .indouble (some (cur.getD [] ++ [d])) ds
        else shlexAux .indouble (some (cur.getD [] ++ [c, d])) ds
    else shlexAux .indouble (some (cur.getD [] ++ [c])) cs

/-- Embedding of `shlex.split` as called by `prepare_transcoding_cmdline`. -/
def shlexSplit (s : String) : List String :=
  shlexAux .normal none s.data

/-- The substitution value for `%genre`:
`res.genre if res.genre else ""`. -/
def genreValue (res : Res) : String :=
  match res.genre with
  | some g => if g ≠ "" then g else ""
  | none => ""

/-- The substitution value for `%year`:
`str(res.year) if res.year else ""` (note that a stored year of `0` is
falsy in Python and also yields the empty string). -/
def yearValue (res : Res) : String :=
  match res.year with
  | some y => if y ≠ 0 then toString y else ""
  | none => ""

/-- The chained `str.replace` calls applied to one token of the command
template, in source order. -/
def substitutePlaceholders (res : Res) (input_format output_format : String)
    (output_bitrate : Int) (part : String) : String :=
  pyReplace (pyReplace (pyReplace (pyReplace (pyReplace (pyReplace (pyReplace
    (pyReplace (pyReplace (pyReplace (pyReplace (pyReplace part
      "%srcpath" res.path)
      "%srcfmt" input_format)
      "%outfmt" output_format)
      "%outrate" (toString output_bitrate))
      "%title" res.title)
      "%album" res.albumName)
      "%artist" res.artistName)
      "%tracknumber" (toString res.number))
      "%totaltracks" (toString res.totalTracks))
      "%discnumber" (toString res.disc))
      "%genre" (genreValue res))
      "%year" (yearValue res)

/-- Embedding of `prepare_transcoding_cmdline`: `None` for a falsy
(absent or empty) template, otherwise `shlex.split` followed by the
placeholder substitution applied to every token. -/
def prepare_transcoding_cmdline (base_cmdline : Option String) (res : Res)
    (input_format output_format : String) (output_bitrate : Int) :
    Option (List String) :=
  if !optStrTruthy base_cmdline then none
  else some ((shlexSplit (base_cmdline.getD "")).map
    (substitutePlaceholders res input_format output_format output_bitrate))

/-- Outcome of the transcoder-selection block of `stream_media` (the
`CacheMiss` branch before any process is spawned): either the final
`(transcoder, decoder, encoder)` configuration triple, or the
`GenericError` message raised when nothing resolves. -/
def select_transcoder (config : String → Option String) (src_suffix dst_suffix : String) :
    Except String (Option String × Option String × Option String) :=
  let transcoder := config ("transcoder_" ++ src_suffix ++ "_" ++ dst_suffix)
  let decoder := pyOr (config ("decoder_" ++ src_suffix)) (config "decoder")
  let encoder := pyOr (config ("encoder_" ++ dst_suffix)) (config "encoder")
  if !optStrTruthy transcoder ∧ (!optStrTruthy decoder ∨ !optStrTruthy encoder) then
    let transcoder := config "transcoder"
    if !optStrTruthy transcoder then
      Except.error ("No way to transcode from " ++ src_suffix ++ " to " ++ dst_suffix)
    else Except.ok (transcoder, decoder, encoder)
  else Except.ok (transcoder, decoder, encoder)

/-- Shape of the spawned process graph: `subprocess.Popen(transcoder)`
alone, or a decoder piped into an encoder. -/
inductive ProcShape
  | single (cmd : List String)
  | pair (dec enc : List String)
deriving DecidableEq

/-- Python truthiness of an optional list (`None` and `[]` are falsy),
used for `if transcoder:` after `prepare_transcoding_cmdline`. -/
def optListTruthy : Option (List String) → Bool
  | none => false
  | some l => !(l == [])

/-- Process-spawn dispatch of `stream_media`: `if transcoder:` spawns the
single transcoder, `else` spawns the decoder/encoder pair. (When the
selection chose the pair path, both prepared command lines are `some`;
Python would raise before `Popen` in the pathological case of a
whitespace-only template, which no claim exercises.) -/
def dispatchProcs (t d e : Option (List String)) : ProcShape :=
  if optListTruthy t then ProcShape.single (t.getD [])
  else ProcShape.pair (d.getD []) (e.getD [])

/-- The response-producing branch taken by `stream_media` for one request,
as a function of the negotiated target, the cache content and the
configuration. `conditional` records the `conditional=True` argument of
`send_file` (range/conditional request support). -/
inductive Plan
  | direct (path : String) (conditional : Bool)
  | cachedHit (key : String) (conditional : Bool)
  | transcodeRun (key : String) (procs : ProcShape)
  | noTranscoderError (message : String)
deriving DecidableEq

/-- Number of external processes spawned by a plan. -/
def processesSpawned : Plan → Nat
  | .direct _ _ => 0
  | .cachedHit _ _ => 0
  | .transcodeRun _ (.single _) => 1
  | .transcodeRun _ (.pair _ _) => 2
  | .noTranscoderError _ => 0

/-- The negotiation inputs gathered by `stream_media` from the track, the
request, the client preferences and the `TRANSCODING` configuration. -/
def negoInputOf (res : Res) (req : StreamRequest) (prefs : ClientPrefs)
    (config : String → Option String) : NegoInput :=
  { srcSuffix := res.suffix
    srcBitrate := res.bitrate
    requestFormat := req.format
    prefsFormat := prefs.format
    prefsBitrate := prefs.bitrate
    maxBitRate := req.maxBitRate
    defaultTranscodeTarget := config "default_transcode_target" }

/-- Control-flow skeleton of `stream_media` after negotiation: transcode
decision, cache lookup, transcoder selection, command preparation and
process dispatch. `cacheHas` abstracts `cache.get` (`true` = hit). -/
def stream_media_plan (res : Res) (req : StreamRequest) (prefs : ClientPrefs)
    (config : String → Option String) (cacheHas : String → Bool) : Plan :=
  let inp := negoInputOf res req prefs config
  let r := negotiate inp
  if requires_transcode inp then
    let key := cache_key res.id r.dstBitrate r.dstSuffix
    if cacheHas key then Plan.cachedHit key true
    else
      match select_transcoder config res.suffix r.dstSuffix with
      | Except.error msg => Plan.noTranscoderError msg
      | Except.ok (t, d, e) =>
        let pt := prepare_transcoding_cmdline t res res.suffix r.dstSuffix r.dstBitrate
        let pd := prepare_transcoding_cmdline d res res.suffix r.dstSuffix r.dstBitrate
        let pe := prepare_transcoding_cmdline e res res.suffix r.dstSuffix r.dstBitrate
        Plan.transcodeRun key (dispatchProcs pt pd pe)
  else Plan.direct res.path true

/-- A chunk of bytes read from the terminal process's stdout (each byte a
`Nat`); `transcode()` reads such chunks with `proc.stdout.read(8192)`. -/
abbrev Chunk := List Nat

/-- The exception classes caught by the first `except` clause of
`handle_transcoding`: `(Exception, SystemExit, KeyboardInterrupt)`. -/
inductive ExnKind
  | exception
  | systemExit
  | keyboardInterrupt
deriving DecidableEq

/-- One observable step of the `handle_transcoding` generator: a chunk
yielded to the consumer, a process kill, a stdout-pipe close, a process
wait (reap), or an exception propagating out of the generator. -/
inductive Action
  | yield (c : Chunk)
  | killDec
  | killProc
  | closeDec
  | waitDec
  | closeProc
  | waitProc
  | raiseExn (e : ExnKind)
  | raiseGenExit
deriving DecidableEq

/-- How one run of the generator is driven from outside: it either runs
to natural end-of-stream, or an exception of class `e` is raised during
byte production after `k` chunks were yielded, or the consumer cancels
(`GeneratorExit` via `close()`) while the generator is suspended at a
yield, after `k` chunks were yielded. -/
inductive StreamEvent
  | natural
  | failure (k : Nat) (e : ExnKind)
  | cancel (k : Nat)
deriving DecidableEq

/-- Embedding of `kill_processes`: kill the decoder first when present,
then the main process. -/
def kill_processes (hasDec : Bool) : List Action :=
  (if hasDec then [Action.killDec] else []) ++ [Action.killProc]

/-- Embedding of the `finally` block of `handle_transcoding`: close the
decoder's stdout and wait on the decoder (when present), then close the
main process's stdout and wait on it. -/
def finallyCleanup (hasDec : Bool) : List Action :=
  (if hasDec then [Action.closeDec, Action.waitDec] else []) ++
    [Action.closeProc, Action.waitProc]

/-- Bytes counted by the `sent` variable after `k` chunks were yielded. -/
def sentBytes (chunks : List Chunk) (k : Nat) : Nat :=
  ((chunks.take k).map List.length).sum

/-- The guard `if estimate and sent >= estimate * 0.95` of the
`GeneratorExit` handler. Python evaluates the threshold in binary
floating point; the embedding uses the exact inequality
`20 * sent ≥ 19 * estimate` (`sent ≥ 0.95 * estimate` over the
rationals), which agrees with the float comparison on the magnitudes the
specification discusses. -/
def continueThreshold (estimate : Option Int) (sent : Nat) : Bool :=
  optIntTruthy estimate && decide (19 * estimate.getD 0 ≤ 20 * (sent : Int))

/-- Trace semantics of the `handle_transcoding` generator of
`stream_media`, for one driving event.  `hasDec` tells whether
`dec_proc is not None`; `chunks` is the full sequence of chunks
`transcode()` would read to natural end-of-stream.

* natural end: every chunk is yielded, then the `finally` cleanup runs;
* exception during production: the chunks yielded so far, then
  `kill_processes()`, then the `finally` cleanup, then the exception
  propagates;
* `GeneratorExit`: when the estimate is truthy and `sent` has reached the
  95% threshold, the generator keeps yielding the remaining chunks
  (`yield from transcode()` resumes at the current read position) and
  finishes with the `finally` cleanup; otherwise it kills both processes
  and re-raises `GeneratorExit`, running the `finally` cleanup before the
  exception propagates. -/
def handle_transcoding (hasDec : Bool) (chunks : List Chunk)
    (estimate : Option Int) : StreamEvent → List Action
  | .natural => chunks.map Action.yield ++ finallyCleanup hasDec
  | .failure k e =>
    (chunks.take k).map Action.yield ++ kill_processes hasDec ++
      finallyCleanup hasDec ++ [Action.raiseExn e]
  | .cancel k =>
    if continueThreshold estimate (sentBytes chunks k) then
      (chunks.take k).map Action.yield ++ (chunks.drop k).map Action.yield ++
        finallyCleanup hasDec
    else
      (chunks.take k).map Action.yield ++ kill_processes hasDec ++
        finallyCleanup hasDec ++ [Action.raiseGenExit]

/-- The estimate computation of `stream_media`:
`estimate = dst_bitrate * 1000 * res.duration // 8` when the request
supplied `estimateContentLength == "true"`, else `None`. Python `//` is
floor division, i.e. `Int.fdiv`. -/
def computeEstimate (estimateContentLength : Option String)
    (dst_bitrate duration : Int) : Option Int :=
  if estimateContentLength = some "true" then
    some (Int.fdiv (dst_bitrate * 1000 * duration) 8)
  else none

/-- Modelled from the spec: the `TranscodeCache` used by `stream_media`
(`current_app.transcode_cache`, `cache.get` / `cache.set_generated`) is
code of this repository that is not under `src/`; this state models the
contract of spec section 4.4: artifacts stored under their fingerprint
key, plus the set of keys with an in-flight production. -/
structure CacheState where
  stored : List (String × List Chunk)
  inflight : List String
deriving DecidableEq

/-- Modelled from the spec: how one request for `key` is served.
`hit` = plain cache lookup, `attached` = joined an in-flight production,
`produced` = started the production (spawning the process pair). -/
inductive CacheOutcome
  | hit
  | attached
  | produced
deriving DecidableEq

/-- Modelled from the spec: serving one request for `key` whose producer
would generate `output`. A stored artifact is served by lookup; otherwise
a request attaches to an in-flight production for the same key instead of
starting a second one; otherwise it registers itself as the producer.
Every consumer receives the full byte sequence (second component). -/
def serveRequest (st : CacheState) (key : String) (output : List Chunk) :
    CacheOutcome × List Chunk × CacheState :=
  match st.stored.lookup key with
  | some bytes => (CacheOutcome.hit, bytes, st)
  | none =>
    if key ∈ st.inflight then (CacheOutcome.attached, output, st)
    else (CacheOutcome.produced, output, { st with inflight := key :: st.inflight })

/-- Modelled from the spec: number of external process pairs spawned by a
serve outcome (only a `produced` outcome spawns). -/
def spawnCount : CacheOutcome → Nat
  | .hit => 0
  | .attached => 0
  | .produced => 1

/-- Modelled from the spec: serving `n` requests for the same key that
all arrive before the production completes; returns the outcomes in
arrival order and the final cache state. -/
def serveConcurrent (st : CacheState) (key : String) (output : List Chunk) :
    Nat → List (CacheOutcome × List Chunk) × CacheState
  | 0 => ([], st)
  | n + 1 =>
    let r := serveRequest st key output
    let rest := serveConcurrent r.2.2 key output n
    ((r.1, r.2.1) :: rest.1, rest.2)

/-- Modelled from the spec: normal completion of the production for
`key`: the artifact becomes visible to future `get` calls and the key is
no longer in flight. -/
def completeProduction (st : CacheState) (key : String) (output : List Chunk) :
    CacheState :=
  { stored := (key, output) :: st.stored, inflight := st.inflight.erase key }

/-- Decimal value of a digit character. -/
def digitVal (c : Char) : Nat := c.toNat - 48

/-- Decimal value of a digit string (most significant first). -/
def digitsVal (l : List Char) : Nat :=
  l.foldl (fun a c => 10 * a + digitVal c) 0

theorem digitVal_digitChar : ∀ d, d < 10 → digitVal (Nat.digitChar d) = d := by
  decide

theorem digitChar_ne_dash : ∀ d, d < 10 → Nat.digitChar d ≠ '-' := by
  decide

theorem toDigitsCore_append (f : Nat) :
    ∀ n ds, Nat.toDigitsCore 10 f n ds = Nat.toDigitsCore 10 f n [] ++ ds := by
  induction f with
  | zero => intro n ds; simp [Nat.toDigitsCore]
  | succ f ih =>
    intro n ds
    simp only [Nat.toDigitsCore]
    by_cases h : n / 10 = 0
    · simp [h]
    · simp only [h, if_false]
      rw [ih (n / 10) (Nat.digitChar (n % 10) :: ds),
        ih (n / 10) (Nat.digitChar (n % 10) :: [])]
      simp

theorem digitsVal_toDigitsCore (f : Nat) :
    ∀ n, n < f → digitsVal (Nat.toDigitsCore 10 f n []) = n := by
  induction f with
  | zero => intro n h; omega
  | succ f ih =>
    intro n h
    simp only [Nat.toDigitsCore]
    by_cases h10 : n / 10 = 0
    · have hn : n < 10 := by omega
      simp only [h10, if_true]
      simp [digitsVal, digitVal_digitChar (n % 10) (Nat.mod_lt n (by omega)),
        Nat.mod_eq_of_lt hn]
      exact digitVal_digitChar n hn
    · have hge : 10 ≤ n := by
        by_contra hc
        exact h10 (Nat.div_eq_of_lt (by omega))
      have hltf : n / 10 < f := by
        have := Nat.div_lt_self (by omega : 0 < n) (by omega : 1 < 10)
        omega
      simp only [h10, if_false]
      rw [toDigitsCore_append f (n / 10) (Nat.digitChar (n % 10) :: [])]
      simp only [digitsVal, List.foldl_append]
      have hval : digitsVal (Nat.toDigitsCore 10 f (n / 10) []) = n / 10 := ih _ hltf
      simp only [digitsVal] at hval
      rw [hval]
      simp [digitVal_digitChar (n % 10) (Nat.mod_lt n (by omega))]
      omega

theorem natRepr_inj {a b : Nat} (h : Nat.repr a = Nat.repr b) : a = b := by
  have hd : Nat.toDigits 10 a = Nat.toDigits 10 b := congrArg String.data h
  have ha := digitsVal_toDigitsCore (a + 1) a (Nat.lt_succ_self a)
  have hb := digitsVal_toDigitsCore (b + 1) b (Nat.lt_succ_self b)
  rw [show Nat.toDigitsCore 10 (a + 1) a [] = Nat.toDigits 10 a from rfl, hd] at ha
  rw [show Nat.toDigitsCore 10 (b + 1) b [] = Nat.toDigits 10 b from rfl] at hb
  omega

theorem toDigitsCore_head (f : Nat) :
    ∀ n, n < f → ∃ m rest, m < 10 ∧
      Nat.toDigitsCore 10 f n [] = Nat.digitChar m :: rest := by
  induction f with
  | zero => intro n h; omega
  | succ f ih =>
    intro n h
    simp only [Nat.toDigitsCore]
    by_cases h10 : n / 10 = 0
    · exact ⟨n % 10, [], Nat.mod_lt n (by omega), by simp [h10]⟩
    · have hge : 10 ≤ n := by
        by_contra hc
        exact h10 (Nat.div_eq_of_lt (by omega))
      have hltf : n / 10 < f := by
        have := Nat.div_lt_self (by omega : 0 < n) (by omega : 1 < 10)
        omega
      obtain ⟨m, rest, hm, heq⟩ := ih (n / 10) hltf
      refine ⟨m, rest ++ [Nat.digitChar (n % 10)], hm, ?_⟩
      simp only [h10, if_false]
      rw [toDigitsCore_append f (n / 10) (Nat.digitChar (n % 10) :: []), heq]
      simp

theorem natRepr_head_ne_dash (n : Nat) :
    ∃ m rest, m < 10 ∧ (Nat.repr n).data = Nat.digitChar m :: rest := by
  obtain ⟨m, rest, hm, heq⟩ := toDigitsCore_head (n + 1) n (Nat.lt_succ_self n)
  exact ⟨m, rest, hm, heq⟩

theorem intToString_inj {a b : Int} (h : toString a = toString b) : a = b := by
  cases a with
  | ofNat m =>
    cases b with
    | ofNat n =>
      have h' : Nat.repr m = Nat.repr n := h
      exact congrArg Int.ofNat (natRepr_inj h')
    | negSucc n =>
      exfalso
      have h' : Nat.repr m = "-" ++ Nat.repr (n + 1) := h
      obtain ⟨d, rest, hd, heq⟩ := natRepr_head_ne_dash m
      have hdata := congrArg String.data h'
      rw [heq, String.data_append] at hdata
      have : Nat.digitChar d = '-' := by
        have : ("-" : String).data = ['-'] := rfl
        rw [this] at hdata
        exact (List.cons.injEq _ _ _ _ ▸ hdata).1
      exact digitChar_ne_dash d hd this
  | negSucc m =>
    cases b with
    | ofNat n =>
      exfalso
      have h' : "-" ++ Nat.repr (m + 1) = Nat.repr n := h
      obtain ⟨d, rest, hd, heq⟩ := natRepr_head_ne_dash n
      have hdata := congrArg String.data h'
      rw [heq, String.data_append] at hdata
      have : Nat.digitChar d = '-' := by
        have h2 : ("-" : String).data = ['-'] := rfl
        rw [h2] at hdata
        exact ((List.cons.injEq _ _ _ _ ▸ hdata).1).symm
      exact digitChar_ne_dash d hd this
    | negSucc n =>
      have h' : "-" ++ Nat.repr (m + 1) = "-" ++ Nat.repr (n + 1) := h
      have hdata := congrArg String.data h'
      simp only [String.data_append] at hdata
      have hrepr : Nat.repr (m + 1) = Nat.repr (n + 1) :=
        String.ext (List.append_cancel_left hdata)
      have := natRepr_inj hrepr
      exact congrArg Int.negSucc (by omega)

theorem optStrTruthy_some {s : String} (h : s ≠ "") : optStrTruthy (some s) = true := by
  simp [optStrTruthy, h]

theorem applyMaxBitRate_fst_false (mb : Option Int) (dt : Option String)
    (ds : String) (db : Int) : (applyMaxBitRate mb false dt ds db).1 = ds := by
  cases mb with
  | none => rfl
  | some m =>
    simp only [applyMaxBitRate]
    split <;> simp

/-- C4: with an explicit request format the target suffix is that (lowercased)
format — `raw` meaning the source suffix — regardless of any stored
preferred format; a stored preferred bitrate is applied only when strictly
below the current target bitrate, so it never raises it; and a supplied
`maxBitRate` of `0` leaves both the target bitrate and the target suffix
untouched. -/
theorem C4_negotiation_precedence (inp : NegoInput) :
    (∀ fmt, inp.requestFormat = some fmt → fmt ≠ "" →
      (negotiate inp).dstSuffix =
        (if pyLower fmt = "raw" then inp.srcSuffix else pyLower fmt)) ∧
    (∀ db, applyPrefsBitrate inp.prefsBitrate db ≤ db) ∧
    (∀ v db, inp.prefsBitrate = some v → ¬ v < db →
      applyPrefsBitrate inp.prefsBitrate db = db) ∧
    (inp.maxBitRate = some 0 →
      (negotiate inp).dstBitrate = applyPrefsBitrate inp.prefsBitrate inp.srcBitrate ∧
      (negotiate inp).dstSuffix =
        (chooseFormat (inp.requestFormat.map pyLower) inp.prefsFormat inp.srcSuffix).2) := by
  refine ⟨?_, ?_, ?_, ?_⟩
  · intro fmt hf hne
    have hlow : ¬ pyLower fmt = "" := pyLower_ne_empty hne
    simp only [negotiate, hf, Option.map_some']
    rw [show chooseFormat (some (pyLower fmt)) inp.prefsFormat inp.srcSuffix =
        (false, if pyLower fmt = "raw" then inp.srcSuffix else pyLower fmt) from by
      simp [chooseFormat, optStrTruthy, hlow]]
    exact applyMaxBitRate_fst_false _ _ _ _
  · intro db
    simp only [applyPrefsBitrate]
    split
    · next h => exact le_of_lt h.2
    · exact le_refl db
  · intro v db hv hnlt
    simp only [applyPrefsBitrate, hv]
    split
    · next h => exact absurd h.2 (by simpa [hv] using hnlt)
    · rfl
  · intro h0
    simp only [negotiate, h0, applyMaxBitRate]
    constructor
    · split
      · next hcond => exact absurd rfl hcond.2
      · rfl
    · split
      · next hcond => exact absurd rfl hcond.2
      · rfl

/-- Witness for C4 at a concrete input: source `flac` at 192 kbps, request
`format=raw` with a stored preference for `ogg` at 256 kbps, `maxBitRate=0`
(the second spec example). -/
theorem C4_negotiation_precedence_witness :
    (negotiate ⟨"flac", 192, some "raw", some "ogg", some 256, some 0, some "mp3"⟩).dstSuffix =
      (if pyLower "raw" = "raw" then "flac" else pyLower "raw") ∧
    applyPrefsBitrate (some 256) 192 ≤ 192 ∧
    (negotiate ⟨"flac", 192, some "raw", some "ogg", some 256, some 0, some "mp3"⟩).dstBitrate =
      applyPrefsBitrate (some 256) 192 := by
  have h := C4_negotiation_precedence ⟨"flac", 192, some "raw", some "ogg", some 256, some 0, some "mp3"⟩
  exact ⟨h.1 "raw" rfl (by decide), h.2.1 192, (h.2.2.2 rfl).1⟩

/-- C5: a supplied, nonzero `maxBitRate` strictly below the current target
bitrate caps the target bitrate to it, and switches the target suffix to
the configured default transcode target (keeping the current suffix when
none is configured) exactly when no explicit or preferred format was
chosen. -/
theorem C5_max_bitrate_cap (inp : NegoInput) (m : Int) (hm : inp.maxBitRate = some m)
    (h0 : m ≠ 0) (hlt : m < applyPrefsBitrate inp.prefsBitrate inp.srcBitrate) :
    (negotiate inp).dstBitrate = m ∧
    (negotiate inp).dstSuffix =
      (if (chooseFormat (inp.requestFormat.map pyLower) inp.prefsFormat inp.srcSuffix).1 then
        (if optStrTruthy inp.defaultTranscodeTarget then inp.defaultTranscodeTarget.getD ""
         else (chooseFormat (inp.requestFormat.map pyLower) inp.prefsFormat inp.srcSuffix).2)
       else (chooseFormat (inp.requestFormat.map pyLower) inp.prefsFormat inp.srcSuffix).2) := by
  simp only [negotiate, hm, applyMaxBitRate]
  rw [if_pos ⟨hlt, h0⟩]
  refine ⟨rfl, ?_⟩
  simp only [pyOr]
  split
  · next hdef =>
    split
    · next htr => simp
    · next htr => simp
  · rfl

/-- Witness for C5 at the first spec example: source `mp3` at 320 kbps, no
request format, no preferences, `maxBitRate=128`, configured default
transcode target `opus`. -/
theorem C5_max_bitrate_cap_witness :
    (negotiate ⟨"mp3", 320, none, none, none, some 128, some "opus"⟩).dstBitrate = 128 ∧
    (negotiate ⟨"mp3", 320, none, none, none, some 128, some "opus"⟩).dstSuffix =
      (if (chooseFormat (Option.map pyLower none) none "mp3").1 then
        (if optStrTruthy (some "opus") then (some "opus").getD "" else
          (chooseFormat (Option.map pyLower none) none "mp3").2)
       else (chooseFormat (Option.map pyLower none) none "mp3").2) :=
  C5_max_bitrate_cap ⟨"mp3", 320, none, none, none, some 128, some "opus"⟩ 128 rfl
    (by decide) (by decide)

/-- C6: transcoding is required exactly when the negotiated suffix differs
from the source suffix or the negotiated bitrate differs from the source
bitrate, and when it is not required the response is served directly from
the source path with conditional/range support and no process is
spawned. -/
theorem C6_transcode_decision (res : Res) (req : StreamRequest) (prefs : ClientPrefs)
    (config : String → Option String) (cacheHas : String → Bool) :
    (requires_transcode (negoInputOf res req prefs config) = true ↔
      ((negotiate (negoInputOf res req prefs config)).dstSuffix ≠ res.suffix ∨
        (negotiate (negoInputOf res req prefs config)).dstBitrate ≠ res.bitrate)) ∧
    (requires_transcode (negoInputOf res req prefs config) = false →
      stream_media_plan res req prefs config cacheHas = Plan.direct res.path true ∧
      processesSpawned (stream_media_plan res req prefs config cacheHas) = 0) := by
  constructor
  · simp [requires_transcode, negoInputOf]
  · intro h
    have hplan : stream_media_plan res req prefs config cacheHas = Plan.direct res.path true := by
      simp only [stream_media_plan, h]
      simp
    exact ⟨hplan, by rw [hplan]; rfl⟩

/-- Witness for C6: the raw/flac spec example requires no transcoding and
is served directly from the source file. -/
theorem C6_transcode_decision_witness :
    stream_media_plan
      ⟨"id1", "/music/t.flac", "flac", 192, 100, "T", "A", "Ar", 1, 10, 1, none, none⟩
      ⟨some 0, some "raw", none⟩ ⟨none, none⟩ (fun _ => none) (fun _ => false) =
      Plan.direct "/music/t.flac" true ∧
    processesSpawned (stream_media_plan
      ⟨"id1", "/music/t.flac", "flac", 192, 100, "T", "A", "Ar", 1, 10, 1, none, none⟩
      ⟨some 0, some "raw", none⟩ ⟨none, none⟩ (fun _ => none) (fun _ => false)) = 0 :=
  (C6_transcode_decision
    ⟨"id1", "/music/t.flac", "flac", 192, 100, "T", "A", "Ar", 1, 10, 1, none, none⟩
    ⟨some 0, some "raw", none⟩ ⟨none, none⟩ (fun _ => none) (fun _ => false)).2 (by decide)

/-- C8: the cache key is a deterministic function of exactly the triple
(resource id, target bitrate, target suffix): equal triples give the
identical key, and two triples that differ in exactly one field give
different keys. -/
theorem C8_cache_key_fingerprint :
    (∀ id1 id2 b1 b2 s1 s2, id1 = id2 → b1 = b2 → s1 = s2 →
      cache_key id1 b1 s1 = cache_key id2 b2 s2) ∧
    (∀ i1 i2 b s, cache_key i1 b s = cache_key i2 b s → i1 = i2) ∧
    (∀ i b1 b2 s, cache_key i b1 s = cache_key i b2 s → b1 = b2) ∧
    (∀ i b s1 s2, cache_key i b s1 = cache_key i b s2 → s1 = s2) := by
  refine ⟨?_, ?_, ?_, ?_⟩
  · intro id1 id2 b1 b2 s1 s2 h1 h2 h3
    rw [h1, h2, h3]
  · intro i1 i2 b s h
    have hd := congrArg String.data h
    simp only [cache_key, String.data_append] at hd
    have hd2 : i1.data ++ ('-' :: ((toString b).data ++ '.' :: s.data)) =
        i2.data ++ ('-' :: ((toString b).data ++ '.' :: s.data)) := by
      simpa [List.append_assoc] using hd
    exact String.ext (List.append_cancel_right hd2)
  · intro i b1 b2 s h
    have hd := congrArg String.data h
    simp only [cache_key, String.data_append, List.append_assoc] at hd
    have h1 := List.append_cancel_left hd
    have h2 := List.append_cancel_left h1
    have h3 : (toString b1).data = (toString b2).data :=
      List.append_cancel_right h2
    exact intToString_inj (String.ext h3)
  · intro i b s1 s2 h
    have hd := congrArg String.data h
    simp only [cache_key, String.data_append, List.append_assoc] at hd
    have h1 := List.append_cancel_left hd
    have h2 := List.append_cancel_left h1
    have h3 := List.append_cancel_left h2
    exact String.ext (List.append_cancel_left h3)

/-- Witness for C8 at a concrete triple, together with the concrete key
value the triple evaluates to. -/
theorem C8_cache_key_fingerprint_witness :
    cache_key "track1" 128 "mp3" = cache_key "track1" 128 "mp3" ∧
    "track1" = "track1" ∧
    cache_key "track1" 128 "mp3" = "track1-128.mp3" :=
  ⟨C8_cache_key_fingerprint.1 "track1" "track1" 128 128 "mp3" "mp3" rfl rfl rfl,
    C8_cache_key_fingerprint.2.1 "track1" "track1" 128 "mp3" rfl,
    by decide⟩

theorem prepare_none_of_falsy (t : Option String) (h : optStrTruthy t = false)
    (res : Res) (fi fo : String) (br : Int) :
    prepare_transcoding_cmdline t res fi fo br = none := by
  simp [prepare_transcoding_cmdline, h]

/-- C7: transcoder command selection tries, in order with the first match
winning: the transcoder configured for the (source, target) pair; then a
decoder for the source (or generic decoder) together with an encoder for
the target (or generic encoder), skipped unless both resolve (in which
case the decoder/encoder pair of processes is dispatched); then the
generic transcoder; and when nothing resolves the request fails with an
error naming the (source, target) pair, with no process spawned. -/
theorem C7_transcoder_selection (config : String → Option String) (src dst : String) :
    (optStrTruthy (config ("transcoder_" ++ src ++ "_" ++ dst)) = true →
      select_transcoder config src dst = Except.ok
        (config ("transcoder_" ++ src ++ "_" ++ dst),
          pyOr (config ("decoder_" ++ src)) (config "decoder"),
          pyOr (config ("encoder_" ++ dst)) (config "encoder"))) ∧
    (optStrTruthy (config ("transcoder_" ++ src ++ "_" ++ dst)) = false →
      optStrTruthy (pyOr (config ("decoder_" ++ src)) (config "decoder")) = true →
      optStrTruthy (pyOr (config ("encoder_" ++ dst)) (config "encoder")) = true →
      select_transcoder config src dst = Except.ok
        (config ("transcoder_" ++ src ++ "_" ++ dst),
          pyOr (config ("decoder_" ++ src)) (config "decoder"),
          pyOr (config ("encoder_" ++ dst)) (config "encoder")) ∧
      ∀ res fi fo br d e,
        dispatchProcs
          (prepare_transcoding_cmdline (config ("transcoder_" ++ src ++ "_" ++ dst))
            res fi fo br) d e = ProcShape.pair (d.getD []) (e.getD [])) ∧
    (optStrTruthy (config ("transcoder_" ++ src ++ "_" ++ dst)) = false →
      (optStrTruthy (pyOr (config ("decoder_" ++ src)) (config "decoder")) = false ∨
        optStrTruthy (pyOr (config ("encoder_" ++ dst)) (config "encoder")) = false) →
      optStrTruthy (config "transcoder") = true →
      select_transcoder config src dst = Except.ok
        (config "transcoder",
          pyOr (config ("decoder_" ++ src)) (config "decoder"),
          pyOr (config ("encoder_" ++ dst)) (config "encoder"))) ∧
    (optStrTruthy (config ("transcoder_" ++ src ++ "_" ++ dst)) = false →
      (optStrTruthy (pyOr (config ("decoder_" ++ src)) (config "decoder")) = false ∨
        optStrTruthy (pyOr (config ("encoder_" ++ dst)) (config "encoder")) = false) →
      optStrTruthy (config "transcoder") = false →
      select_transcoder config src dst =
        Except.error ("No way to transcode from " ++ src ++ " to " ++ dst)) ∧
    (∀ res req prefs cacheHas msg,
      stream_media_plan res req prefs config cacheHas = Plan.noTranscoderError msg →
      processesSpawned (stream_media_plan res req prefs config cacheHas) = 0) := by
  refine ⟨?_, ?_, ?_, ?_, ?_⟩
  · intro hT
    simp [select_transcoder, hT]
  · intro hT hD hE
    refine ⟨by simp [select_transcoder, hT, hD, hE], ?_⟩
    intro res fi fo br d e
    rw [prepare_none_of_falsy _ hT]
    simp [dispatchProcs, optListTruthy]
  · intro hT hDE hG
    rcases hDE with hD | hE
    · simp [select_transcoder, hT, hD, hG]
    · simp [select_transcoder, hT, hE, hG]
  · intro hT hDE hG
    rcases hDE with hD | hE
    · simp [select_transcoder, hT, hD, hG]
    · simp [select_transcoder, hT, hE, hG]
  · intro res req prefs cacheHas msg h
    rw [h]
    rfl

/-- Witness for C7: a configuration with only `decoder_flac` and
`encoder_mp3` selects the decoder/encoder pair for a flac-to-mp3 request
and dispatches two piped processes. -/
theorem C7_transcoder_selection_witness :
    select_transcoder
      (fun k => if k = "decoder_flac" then some "flac -dcs %srcpath"
        else if k = "encoder_mp3" then some "lame -b %outrate - -" else none)
      "flac" "mp3" =
      Except.ok (none, some "flac -dcs %srcpath", some "lame -b %outrate - -") ∧
    dispatchProcs
      (prepare_transcoding_cmdline none
        ⟨"id1", "/music/t.flac", "flac", 192, 100, "T", "A", "Ar", 1, 10, 1, none, none⟩
        "flac" "mp3" 128)
      (some ["flac", "-dcs", "/music/t.flac"]) (some ["lame", "-b", "128", "-", "-"]) =
      ProcShape.pair ["flac", "-dcs", "/music/t.flac"] ["lame", "-b", "128", "-", "-"] := by
  have h := (C7_transcoder_selection
    (fun k => if k = "decoder_flac" then some "flac -dcs %srcpath"
      else if k = "encoder_mp3" then some "lame -b %outrate - -" else none)
    "flac" "mp3").2.1 (by decide) (by decide) (by decide)
  refine ⟨?_, ?_⟩
  · have := h.1
    simpa using this
  · have := h.2
      ⟨"id1", "/music/t.flac", "flac", 192, 100, "T", "A", "Ar", 1, 10, 1, none, none⟩
      "flac" "mp3" 128
      (some ["flac", "-dcs", "/music/t.flac"]) (some ["lame", "-b", "128", "-", "-"])
    simpa using this

/-- C9: `prepare_transcoding_cmdline` returns `None` for an absent or
empty template; otherwise it shell-word tokenizes the template and then
applies the literal placeholder substitutions to every token, with genre
and year substituting the empty string when absent, and the substitution
never changes the number of tokens fixed by the template. -/
theorem C9_cmdline_templating (res : Res) (fi fo : String) (br : Int) :
    prepare_transcoding_cmdline none res fi fo br = none ∧
    prepare_transcoding_cmdline (some "") res fi fo br = none ∧
    (∀ tmpl : String, tmpl ≠ "" →
      prepare_transcoding_cmdline (some tmpl) res fi fo br =
        some ((shlexSplit tmpl).map (substitutePlaceholders res fi fo br)) ∧
      ∀ out, prepare_transcoding_cmdline (some tmpl) res fi fo br = some out →
        out.length = (shlexSplit tmpl).length) ∧
    (res.genre = none → genreValue res = "") ∧
    (res.year = none → yearValue res = "") := by
  refine ⟨rfl, rfl, ?_, ?_, ?_⟩
  · intro tmpl htmpl
    have ht : optStrTruthy (some tmpl) = true := optStrTruthy_some htmpl
    constructor
    · simp [prepare_transcoding_cmdline, ht]
    · intro out hout
      simp [prepare_transcoding_cmdline, ht] at hout
      rw [← hout]
      exact List.length_map _ _
  · intro h
    simp [genreValue, h]
  · intro h
    simp [yearValue, h]

/-- Witness for C9 on a concrete template: tokenization happens on the
template, substituted values are inserted into the fixed tokens, and the
token count is preserved. -/
theorem C9_cmdline_templating_witness :
    prepare_transcoding_cmdline (some "lame --tt %title -b %outrate - -")
      ⟨"id1", "/music/t.flac", "flac", 192, 100, "My Song", "A", "Ar", 1, 10, 1, none, none⟩
      "flac" "mp3" 128 =
      some ((shlexSplit "lame --tt %title -b %outrate - -").map
        (substitutePlaceholders
          ⟨"id1", "/music/t.flac", "flac", 192, 100, "My Song", "A", "Ar", 1, 10, 1, none, none⟩
          "flac" "mp3" 128)) ∧
    genreValue ⟨"id1", "/music/t.flac", "flac", 192, 100, "My Song", "A", "Ar", 1, 10, 1,
      none, none⟩ = "" := by
  have h := C9_cmdline_templating
    ⟨"id1", "/music/t.flac", "flac", 192, 100, "My Song", "A", "Ar", 1, 10, 1, none, none⟩
    "flac" "mp3" 128
  exact ⟨(h.2.2.1 "lame --tt %title -b %outrate - -" (by decide)).1, h.2.2.2.1 rfl⟩

/-- C1: with a computed positive estimate, a cancellation arriving when
the sent bytes have reached 95% of the estimate is ignored and the
generator keeps yielding chunks to natural end-of-stream (no kill, no
re-raise); a cancellation below the threshold kills the decoder first
(when present), then the main process, and re-raises the cancellation
after the cleanup. -/
theorem C1_cancellation_policy (hasDec : Bool) (chunks : List Chunk) (k : Nat)
    (e : Int) (he : 0 < e) :
    (19 * e ≤ 20 * (sentBytes chunks k : Int) →
      handle_transcoding hasDec chunks (some e) (.cancel k) =
        chunks.map Action.yield ++ finallyCleanup hasDec ∧
      Action.killDec ∉ handle_transcoding hasDec chunks (some e) (.cancel k) ∧
      Action.killProc ∉ handle_transcoding hasDec chunks (some e) (.cancel k) ∧
      Action.raiseGenExit ∉ handle_transcoding hasDec chunks (some e) (.cancel k)) ∧
    (20 * (sentBytes chunks k : Int) < 19 * e →
      handle_transcoding hasDec chunks (some e) (.cancel k) =
        (chunks.take k).map Action.yield ++
          ((if hasDec then [Action.killDec] else []) ++ [Action.killProc]) ++
          finallyCleanup hasDec ++ [Action.raiseGenExit]) := by
  have htruthy : optIntTruthy (some e) = true := by
    simp only [optIntTruthy, Bool.not_eq_true', beq_eq_false_iff_ne]
    omega
  constructor
  · intro hge
    have hth : continueThreshold (some e) (sentBytes chunks k) = true := by
      simp [continueThreshold, htruthy, hge]
    have heq : handle_transcoding hasDec chunks (some e) (.cancel k) =
        chunks.map Action.yield ++ finallyCleanup hasDec := by
      simp only [handle_transcoding, hth, if_true]
      rw [← List.map_append, List.take_append_drop]
    refine ⟨heq, ?_, ?_, ?_⟩ <;> rw [heq] <;>
      cases hasDec <;> simp [finallyCleanup, List.mem_append, List.mem_map]
  · intro hlt
    have hth : continueThreshold (some e) (sentBytes chunks k) = false := by
      simp only [continueThreshold, htruthy, Bool.true_and, Option.getD_some,
        decide_eq_false_iff_not]
      omega
    simp [handle_transcoding, hth, kill_processes, List.append_assoc]

/-- Witness for C1: with an estimate of 1,000,000 bytes (the figure of the
specification), a cancellation delivered when only 3 bytes were sent —
far below the 95% threshold — aborts: the decoder is killed, then the
main process, and the cancellation is re-raised after the cleanup. -/
theorem C1_cancellation_policy_witness :
    handle_transcoding true [[0, 0, 0], [7]] (some 1000000) (.cancel 1) =
      (([[0, 0, 0], [7]] : List Chunk).take 1).map Action.yield ++
        ((if true then [Action.killDec] else []) ++ [Action.killProc]) ++
        finallyCleanup true ++ [Action.raiseGenExit] := by
  apply (C1_cancellation_policy true [[0, 0, 0], [7]] 1 1000000 (by norm_num)).2
  decide

theorem mem_map_yield {l : List Chunk} {a : Action} (ha : a ∈ l.map Action.yield) :
    ∃ c, a = Action.yield c := by
  obtain ⟨c, _, rfl⟩ := List.mem_map.mp ha
  exact ⟨c, rfl⟩

theorem finallyCleanup_actions {hasDec : Bool} {a : Action}
    (ha : a ∈ finallyCleanup hasDec) :
    a = Action.closeDec ∨ a = Action.waitDec ∨ a = Action.closeProc ∨
      a = Action.waitProc := by
  cases hasDec <;> simp [finallyCleanup] at ha <;> tauto

theorem kill_processes_actions {hasDec : Bool} {a : Action}
    (ha : a ∈ kill_processes hasDec) : a = Action.killDec ∨ a = Action.killProc := by
  cases hasDec <;> simp [kill_processes] at ha <;> tauto

theorem cleanup_disjoint {hasDec : Bool} {pre post : List Action}
    (hpre : ∀ a ∈ pre, (∃ c, a = Action.yield c) ∨ a = Action.killDec ∨ a = Action.killProc)
    (hpost : ∀ a ∈ post, a = Action.raiseGenExit ∨ ∃ ex, a = Action.raiseExn ex) :
    ∀ a ∈ finallyCleanup hasDec, a ∉ pre ∧ a ∉ post := by
  intro a ha
  rcases finallyCleanup_actions ha with rfl | rfl | rfl | rfl <;>
    constructor <;> intro hc <;>
      first
        | rcases hpre _ hc with ⟨c, h⟩ | h | h <;> simp at h
        | rcases hpost _ hc with h | ⟨ex, h⟩ <;> simp at h

/-- C2: every exit of the `handle_transcoding` generator — natural
completion, cancellation (above or below the threshold), or an unexpected
exception during byte production — runs the full `finally` cleanup
(decoder stdout close and wait first when present, then the main
process's): the trace always factors as yields-and-kills, then the
cleanup block, then the propagating exception (if any), and no
close/wait action occurs anywhere else. -/
theorem C2_cleanup_every_exit (hasDec : Bool) (chunks : List Chunk)
    (est : Option Int) (ev : StreamEvent) :
    ∃ pre post,
      handle_transcoding hasDec chunks est ev = pre ++ finallyCleanup hasDec ++ post ∧
      (∀ a ∈ pre, (∃ c, a = Action.yield c) ∨ a = Action.killDec ∨ a = Action.killProc) ∧
      (∀ a ∈ post, a = Action.raiseGenExit ∨ ∃ ex, a = Action.raiseExn ex) ∧
      (∀ a ∈ finallyCleanup hasDec, a ∉ pre ∧ a ∉ post) := by
  cases ev with
  | natural =>
    have hpre : ∀ a ∈ chunks.map Action.yield,
        (∃ c, a = Action.yield c) ∨ a = Action.killDec ∨ a = Action.killProc :=
      fun a ha => Or.inl (mem_map_yield ha)
    have hpost : ∀ a ∈ ([] : List Action),
        a = Action.raiseGenExit ∨ ∃ ex, a = Action.raiseExn ex := by
      intro a ha
      simp at ha
    exact ⟨_, _, by simp [handle_transcoding], hpre, hpost, cleanup_disjoint hpre hpost⟩
  | failure k ex =>
    have hpre : ∀ a ∈ (chunks.take k).map Action.yield ++ kill_processes hasDec,
        (∃ c, a = Action.yield c) ∨ a = Action.killDec ∨ a = Action.killProc := by
      intro a ha
      rcases List.mem_append.mp ha with h | h
      · exact Or.inl (mem_map_yield h)
      · exact Or.inr (kill_processes_actions h)
    have hpost : ∀ a ∈ [Action.raiseExn ex],
        a = Action.raiseGenExit ∨ ∃ ex2, a = Action.raiseExn ex2 := by
      intro a ha
      rw [List.mem_singleton.mp ha]
      exact Or.inr ⟨ex, rfl⟩
    exact ⟨_, _, by simp [handle_transcoding, List.append_assoc], hpre, hpost,
      cleanup_disjoint hpre hpost⟩
  | cancel k =>
    by_cases hth : continueThreshold est (sentBytes chunks k) = true
    · have hpre : ∀ a ∈ (chunks.take k).map Action.yield ++ (chunks.drop k).map Action.yield,
          (∃ c, a = Action.yield c) ∨ a = Action.killDec ∨ a = Action.killProc := by
        intro a ha
        rcases List.mem_append.mp ha with h | h
        · exact Or.inl (mem_map_yield h)
        · exact Or.inl (mem_map_yield h)
      have hpost : ∀ a ∈ ([] : List Action),
          a = Action.raiseGenExit ∨ ∃ ex, a = Action.raiseExn ex := by
        intro a ha
        simp at ha
      exact ⟨_, _, by simp [handle_transcoding, hth, List.append_assoc], hpre, hpost,
        cleanup_disjoint hpre hpost⟩
    · have hpre : ∀ a ∈ (chunks.take k).map Action.yield ++ kill_processes hasDec,
          (∃ c, a = Action.yield c) ∨ a = Action.killDec ∨ a = Action.killProc := by
        intro a ha
        rcases List.mem_append.mp ha with h | h
        · exact Or.inl (mem_map_yield h)
        · exact Or.inr (kill_processes_actions h)
      have hpost : ∀ a ∈ [Action.raiseGenExit],
          a = Action.raiseGenExit ∨ ∃ ex, a = Action.raiseExn ex := by
        intro a ha
        exact Or.inl (List.mem_singleton.mp ha)
      exact ⟨_, _, by simp [handle_transcoding, hth, List.append_assoc], hpre, hpost,
        cleanup_disjoint hpre hpost⟩

/-- Witness for C2 at a concrete run: natural completion of a two-chunk
stream through a decoder/encoder pair. -/
theorem C2_cleanup_every_exit_witness :
    ∃ pre post,
      handle_transcoding true [[1, 2], [3]] (some 5) StreamEvent.natural =
        pre ++ finallyCleanup true ++ post ∧
      (∀ a ∈ pre, (∃ c, a = Action.yield c) ∨ a = Action.killDec ∨ a = Action.killProc) ∧
      (∀ a ∈ post, a = Action.raiseGenExit ∨ ∃ ex, a = Action.raiseExn ex) ∧
      (∀ a ∈ finallyCleanup true, a ∉ pre ∧ a ∉ post) :=
  C2_cleanup_every_exit true [[1, 2], [3]] (some 5) StreamEvent.natural

/-- C10: when the request does not supply `estimateContentLength=true` no
estimate is computed, and a cancellation at any progress point then takes
the abort path: kill both processes, clean up, and re-raise — the
continue-to-completion branch is unreachable. -/
theorem C10_no_estimate_no_continue (ecl : Option String) (db dur : Int)
    (h : ecl ≠ some "true") :
    computeEstimate ecl db dur = none ∧
    ∀ (hasDec : Bool) (chunks : List Chunk) (k : Nat),
      handle_transcoding hasDec chunks (computeEstimate ecl db dur) (.cancel k) =
        (chunks.take k).map Action.yield ++ kill_processes hasDec ++
          finallyCleanup hasDec ++ [Action.raiseGenExit] := by
  have hc : computeEstimate ecl db dur = none := by
    simp [computeEstimate, h]
  refine ⟨hc, ?_⟩
  intro hasDec chunks k
  rw [hc]
  simp [handle_transcoding, continueThreshold, optIntTruthy]

/-- Witness for C10: an absent `estimateContentLength` parameter, with a
cancellation after every chunk was already sent, still aborts. -/
theorem C10_no_estimate_no_continue_witness :
    computeEstimate none 128 100 = none ∧
    handle_transcoding false [[1, 2], [3]] (computeEstimate none 128 100) (.cancel 2) =
      (([[1, 2], [3]] : List Chunk).take 2).map Action.yield ++ kill_processes false ++
        finallyCleanup false ++ [Action.raiseGenExit] := by
  have h := C10_no_estimate_no_continue none 128 100 (by simp)
  exact ⟨h.1, h.2 false [[1, 2], [3]] 2⟩

theorem serveConcurrent_inflight (key : String) (output : List Chunk) :
    ∀ (n : Nat) (st : CacheState), st.stored.lookup key = none → key ∈ st.inflight →
      (serveConcurrent st key output n).1 =
        List.replicate n (CacheOutcome.attached, output) ∧
      (serveConcurrent st key output n).2 = st := by
  intro n
  induction n with
  | zero => exact fun st _ _ => ⟨rfl, rfl⟩
  | succ m ih =>
    intro st h1 h2
    have hserve : serveRequest st key output = (CacheOutcome.attached, output, st) := by
      simp [serveRequest, h1, h2]
    obtain ⟨ha, hb⟩ := ih st h1 h2
    simp only [serveConcurrent, hserve]
    rw [List.replicate_succ]
    exact ⟨by rw [ha], by rw [hb]⟩

/-- C3: N ≥ 1 concurrent requests for the same fingerprint against a cold
cache spawn exactly one producer (the process pair of the first request);
every request receives the identical byte sequence; and after the
production completes the artifact is served by plain cache lookup with no
further spawn. -/
theorem C3_at_most_one_producer (st : CacheState) (key : String) (output : List Chunk)
    (n : Nat) (hstored : st.stored.lookup key = none) (hinflight : key ∉ st.inflight)
    (hn : 1 ≤ n) :
    ((serveConcurrent st key output n).1.map (fun p => spawnCount p.1)).sum = 1 ∧
    (∀ p ∈ (serveConcurrent st key output n).1, p.2 = output) ∧
    serveRequest (completeProduction (serveConcurrent st key output n).2 key output)
        key output =
      (CacheOutcome.hit, output,
        completeProduction (serveConcurrent st key output n).2 key output) := by
  obtain ⟨m, rfl⟩ : ∃ m, n = m + 1 := ⟨n - 1, by omega⟩
  have hserve : serveRequest st key output =
      (CacheOutcome.produced, output, { st with inflight := key :: st.inflight }) := by
    simp [serveRequest, hstored, hinflight]
  obtain ⟨ha, hb⟩ := serveConcurrent_inflight key output m
    { st with inflight := key :: st.inflight } hstored (by simp)
  have hfst : (serveConcurrent st key output (m + 1)).1 =
      (CacheOutcome.produced, output) ::
        List.replicate m (CacheOutcome.attached, output) := by
    simp only [serveConcurrent, hserve]
    rw [ha]
  have hsnd : (serveConcurrent st key output (m + 1)).2 =
      { st with inflight := key :: st.inflight } := by
    simp only [serveConcurrent, hserve]
    rw [hb]
  refine ⟨?_, ?_, ?_⟩
  · rw [hfst]
    simp [spawnCount, List.map_replicate, List.sum_replicate]
  · intro p hp
    rw [hfst] at hp
    rcases List.mem_cons.mp hp with rfl | hp2
    · rfl
    · rw [List.eq_of_mem_replicate hp2]
  · rw [hsnd]
    simp [serveRequest, completeProduction, List.lookup]

/-- Witness for C3: three concurrent requests against an empty cache. -/
theorem C3_at_most_one_producer_witness :
    ((serveConcurrent ⟨[], []⟩ "id1-128.mp3" [[1, 2]] 3).1.map
      (fun p => spawnCount p.1)).sum = 1 ∧
    (∀ p ∈ (serveConcurrent ⟨[], []⟩ "id1-128.mp3" [[1, 2]] 3).1, p.2 = [[1, 2]]) ∧
    serveRequest
        (completeProduction (serveConcurrent ⟨[], []⟩ "id1-128.mp3" [[1, 2]] 3).2
          "id1-128.mp3" [[1, 2]]) "id1-128.mp3" [[1, 2]] =
      (CacheOutcome.hit, [[1, 2]],
        completeProduction (serveConcurrent ⟨[], []⟩ "id1-128.mp3" [[1, 2]] 3).2
          "id1-128.mp3" [[1, 2]]) :=
  C3_at_most_one_producer ⟨[], []⟩ "id1-128.mp3" [[1, 2]] 3 rfl (by simp) (by norm_num)

end Supysonic
